import Mathlib

/-!
Verification of the GhostDraft continuous-collector core: a shallow
embedding of the state machine, the warm-file counter, the warm-file
aggregator and the archiver, with theorems checking the specification's
claims against the embedded code.
-/

namespace GhostDraft.Collector

/-! ## State machine (`state_machine.go`) -/

/-- `State` of the continuous collector, mirroring the Go `State int32` enum. -/
inductive State where
  | Startup
  | Collecting
  | Reducing
  | Pushing
  | WaitingForKey
  | FreshRestart
  | Shutdown
  deriving DecidableEq, Repr

instance : Fintype State :=
  ⟨⟨{.Startup, .Collecting, .Reducing, .Pushing, .WaitingForKey, .FreshRestart, .Shutdown},
    by decide⟩, fun s => by cases s <;> decide⟩

/-- `validTransitions`: the adjacency table from the source.  A missing
entry in the Go map reads as `false`, so the table is total here. -/
def validTransitions : State → State → Bool
  | .Startup, .Collecting => true
  | .Startup, .Shutdown => true
  | .Collecting, .Reducing => true
  | .Collecting, .Shutdown => true
  | .Reducing, .Pushing => true
  | .Reducing, .Shutdown => true
  | .Pushing, .Collecting => true
  | .Pushing, .WaitingForKey => true
  | .Pushing, .Shutdown => true
  | .WaitingForKey, .FreshRestart => true
  | .WaitingForKey, .Shutdown => true
  | .FreshRestart, .Startup => true
  | .FreshRestart, .Shutdown => true
  | _, _ => false

/-- The adjacency table exactly as the specification lists it, written
independently of the source table so the two can be compared. -/
def specValidTransitions (s t : State) : Bool :=
  match s with
  | .Startup => t = State.Collecting ∨ t = State.Shutdown
  | .Collecting => t = State.Reducing ∨ t = State.Shutdown
  | .Reducing => t = State.Pushing ∨ t = State.Shutdown
  | .Pushing => t = State.Collecting ∨ t = State.WaitingForKey ∨ t = State.Shutdown
  | .WaitingForKey => t = State.FreshRestart ∨ t = State.Shutdown
  | .FreshRestart => t = State.Startup ∨ t = State.Shutdown
  | .Shutdown => false

/-- `InvalidTransitionError` carries the source and target of a rejected
transition. -/
structure InvalidTransitionError where
  From : State
  To : State
  deriving DecidableEq, Repr

/-- `StateMachine.isValidTransition`: self-transitions are rejected, then
the adjacency table decides. -/
def isValidTransition (s t : State) : Bool :=
  if s = t then false else validTransitions s t

/-- Outcome of `StateMachine.TransitionTo`: the error (if any) and the
machine state after the call. -/
structure TransitionResult where
  error : Option InvalidTransitionError
  state : State
  deriving DecidableEq, Repr

/-- `StateMachine.TransitionTo` under the machine's mutex: on an invalid
transition the state is untouched and an `InvalidTransitionError` is
returned; otherwise the state is stored. -/
def TransitionTo (s t : State) : TransitionResult :=
  if isValidTransition s t then ⟨none, t⟩ else ⟨some ⟨s, t⟩, s⟩

/-- `StateMachine.TryTransitionToReducing` under the machine's mutex:
returns whether the caller won, together with the state after the call. -/
def TryTransitionToReducing (s : State) : Bool × State :=
  if s = State.Collecting then (true, State.Reducing) else (false, s)

/-- Number of successful `TryTransitionToReducing` calls among `n`
sequential calls (the mutex serialises concurrent callers). -/
def tryCallsCount : State → Nat → Nat
  | _, 0 => 0
  | s, n + 1 =>
    let r := TryTransitionToReducing s
    (if r.1 then 1 else 0) + tryCallsCount r.2 n

/-! ## WarmFileCounter (`warmcounter.go`) -/

/-- `WarmFileCounter`: a counter (`atomic.Int64` in the source) with a
threshold and a `fired` latch for the single-shot callback. -/
structure WarmFileCounter where
  count : Int
  threshold : Int
  fired : Bool
  deriving DecidableEq, Repr

/-- `NewWarmFileCounter`: count 0, latch unarmed. -/
def NewWarmFileCounter (threshold : Int) : WarmFileCounter :=
  { count := 0, threshold := threshold, fired := false }

/-- `WarmFileCounter.Increment` with the fire decision serialised under
the counter's mutex.  The returned `Bool` reports whether the callback
was invoked by this call. -/
def Increment (c : WarmFileCounter) : WarmFileCounter × Bool :=
  let newCount := c.count + 1
  if newCount ≥ c.threshold ∧ c.fired = false then
    ({ c with count := newCount, fired := true }, true)
  else
    ({ c with count := newCount }, false)

/-- `WarmFileCounter.Reset`: count back to 0, latch re-armed. -/
def Reset (c : WarmFileCounter) : WarmFileCounter :=
  { c with count := 0, fired := false }

/-- `n` sequential `Increment` calls; the second component lists, in call
order, whether each call fired the callback. -/
def incRun : WarmFileCounter → Nat → WarmFileCounter × List Bool
  | c, 0 => (c, [])
  | c, n + 1 =>
    let r := Increment c
    let rest := incRun r.1 n
    (rest.1, r.2 :: rest.2)

/-- The expected fire pattern of a run of `Increment` calls starting at
count `cnt` with the latch re-armed: the callback fires exactly at the
call whose post-increment count first reaches the threshold `t`. -/
def fireIndicator (cnt t : Int) : Nat → List Bool
  | 0 => []
  | n + 1 => decide (cnt + 1 = t) :: fireIndicator (cnt + 1) t n

/-! ## Aggregator (`reducer.go`) -/

/-- Both fields of every stats value in `reducer.go` (`ChampionStats`,
`ItemStats`, `ItemSlotStats`, `MatchupStats` all hold `Wins`/`Matches`). -/
structure StatCounters where
  Wins : Nat
  Matches : Nat
  deriving DecidableEq, Repr

abbrev ChampionStats := StatCounters
abbrev ItemStats := StatCounters
abbrev ItemSlotStats := StatCounters
abbrev MatchupStats := StatCounters

/-- `ChampionStatsKey` (patch, champion, position). -/
structure ChampionStatsKey where
  Patch : String
  ChampionID : Int
  TeamPosition : String
  deriving DecidableEq, Repr

/-- `ItemStatsKey` (patch, champion, position, item). -/
structure ItemStatsKey where
  Patch : String
  ChampionID : Int
  TeamPosition : String
  ItemID : Int
  deriving DecidableEq, Repr

/-- `ItemSlotStatsKey` (patch, champion, position, item, slot 1-6). -/
structure ItemSlotStatsKey where
  Patch : String
  ChampionID : Int
  TeamPosition : String
  ItemID : Int
  BuildSlot : Int
  deriving DecidableEq, Repr

/-- `MatchupStatsKey` (patch, champion, position, enemy champion). -/
structure MatchupStatsKey where
  Patch : String
  ChampionID : Int
  TeamPosition : String
  EnemyChampionID : Int
  deriving DecidableEq, Repr

/-- A Go `map[K]*V` whose absent keys read as zero counters (the code
allocates a zero value on first touch and then increments). -/
def StatMap (κ : Type) : Type := κ → StatCounters

/-- Zero counters: the value allocated on a key's first touch. -/
def zeroStat : StatCounters := ⟨0, 0⟩

/-- The empty stats map. -/
def zeroMap (κ : Type) : StatMap κ := fun _ => zeroStat

/-- `Matches++` and, when `win`, `Wins++`. -/
def bump (win : Bool) (s : StatCounters) : StatCounters :=
  { Wins := s.Wins + (if win then 1 else 0), Matches := s.Matches + 1 }

/-- Increment the counters stored under `k`. -/
def addStat {κ : Type} [DecidableEq κ] (m : StatMap κ) (k : κ) (win : Bool) : StatMap κ :=
  fun k' => if k' = k then bump win (m k') else m k'

/-- Keywise merge of two stats maps (the merge loops in
`AggregateWarmFiles` add `Wins` and `Matches` per key). -/
def mergeMap {κ : Type} (m₁ m₂ : StatMap κ) : StatMap κ :=
  fun k => ⟨(m₁ k).Wins + (m₂ k).Wins, (m₁ k).Matches + (m₂ k).Matches⟩

/-- `storage.RawMatch`, restricted to the fields the aggregator reads. -/
structure RawMatch where
  MatchID : String
  GameVersion : String
  ChampionID : Int
  TeamPosition : String
  Win : Bool
  Item0 : Int
  Item1 : Int
  Item2 : Int
  Item3 : Int
  Item4 : Int
  Item5 : Int
  BuildOrder : List Int
  deriving DecidableEq, Repr

/-- One line of a warm `.jsonl` file, by outcome of `json.Unmarshal`. -/
inductive Line where
  | malformed
  | parsed (m : RawMatch)
  deriving DecidableEq, Repr

/-- `ItemFilter`: injected predicate over item ids. -/
def ItemFilter : Type := Int → Bool

/-- `strings.Split` on the separator `"."`: every maximal run between
dots becomes one segment, empty segments included, and the empty string
yields the single empty segment. -/
def splitDots : List Char → List (List Char)
  | [] => [[]]
  | c :: rest =>
    match splitDots rest with
    | s :: ss => if c = '.' then [] :: s :: ss else (c :: s) :: ss
    | [] => [[c]]

/-- `normalizePatch`: first two dot-separated segments of the version. -/
def normalizePatch (version : String) : String :=
  match splitDots version.toList with
  | p₀ :: p₁ :: _ => String.mk p₀ ++ "." ++ String.mk p₁
  | _ => version

/-- Append `m` to the slice stored under `k` in an insertion-ordered
association list (a Go `map[string][]RawMatch` with per-key append). -/
def appendAt (l : List (String × List RawMatch)) (k : String) (m : RawMatch) :
    List (String × List RawMatch) :=
  match l with
  | [] => [(k, [m])]
  | (k', ms) :: rest =>
    if k' = k then (k', ms ++ [m]) :: rest
    else (k', ms) :: appendAt rest k m

/-- The item-stats loop over the six final-inventory slots, carrying the
`seenItems` set. -/
def processItems (itemFilter : ItemFilter) (m : RawMatch) (patch : String) :
    List Int → List Int → StatMap ItemStatsKey → StatMap ItemStatsKey
  | [], _, stats => stats
  | itemID :: rest, seen, stats =>
    if itemID = 0 ∨ itemID ∈ seen ∨ itemFilter itemID = false then
      processItems itemFilter m patch rest seen stats
    else
      processItems itemFilter m patch rest (itemID :: seen)
        (addStat stats ⟨patch, m.ChampionID, m.TeamPosition, itemID⟩ m.Win)

/-- The item-slot loop over `BuildOrder`, carrying `seenSlotItems` and the
`buildSlot` counter; only slots 1-6 are recorded. -/
def processBuildOrder (itemFilter : ItemFilter) (m : RawMatch) (patch : String) :
    List Int → List Int → Int → StatMap ItemSlotStatsKey → StatMap ItemSlotStatsKey
  | [], _, _, stats => stats
  | itemID :: rest, seen, buildSlot, stats =>
    if itemID = 0 ∨ itemID ∈ seen ∨ itemFilter itemID = false then
      processBuildOrder itemFilter m patch rest seen buildSlot stats
    else
      let buildSlot' := buildSlot + 1
      let stats' :=
        if buildSlot' ≤ 6 then
          addStat stats ⟨patch, m.ChampionID, m.TeamPosition, itemID, buildSlot'⟩ m.Win
        else stats
      processBuildOrder itemFilter m patch rest (itemID :: seen) buildSlot' stats'

/-- The state threaded through `aggregateFile`'s scan loop. -/
structure FileScan where
  championStats : StatMap ChampionStatsKey
  itemStats : StatMap ItemStatsKey
  itemSlotStats : StatMap ItemSlotStatsKey
  detectedPatch : String
  recordCount : Nat
  matchParticipants : List (String × List RawMatch)

/-- Scan state at the top of `aggregateFile`. -/
def initFileScan : FileScan :=
  { championStats := zeroMap _, itemStats := zeroMap _, itemSlotStats := zeroMap _,
    detectedPatch := "", recordCount := 0, matchParticipants := [] }

/-- One iteration of `aggregateFile`'s scan loop. -/
def scanLine (itemFilter : ItemFilter) (st : FileScan) : Line → FileScan
  | .malformed => st
  | .parsed m =>
    let st₁ := { st with recordCount := st.recordCount + 1 }
    if m.TeamPosition = "" then st₁
    else
      let patch := normalizePatch m.GameVersion
      { championStats :=
          addStat st₁.championStats ⟨patch, m.ChampionID, m.TeamPosition⟩ m.Win,
        itemStats :=
          processItems itemFilter m patch
            [m.Item0, m.Item1, m.Item2, m.Item3, m.Item4, m.Item5] [] st₁.itemStats,
        itemSlotStats :=
          if m.BuildOrder ≠ [] then
            processBuildOrder itemFilter m patch m.BuildOrder [] 0 st₁.itemSlotStats
          else st₁.itemSlotStats,
        detectedPatch := if st₁.detectedPatch = "" then patch else st₁.detectedPatch,
        recordCount := st₁.recordCount,
        matchParticipants := appendAt st₁.matchParticipants m.MatchID m }

/-- Group one match's participants by `TeamPosition` (the `byPosition`
map of the second pass). -/
def byPosition (ps : List RawMatch) : List (String × List RawMatch) :=
  ps.foldl (fun acc p => appendAt acc p.TeamPosition p) []

/-- The matchup contribution of one position's player group: exactly two
players with differing outcomes produce the two symmetric increments. -/
def matchupOfPosGroup (posPlayers : List RawMatch) (stats : StatMap MatchupStatsKey) :
    StatMap MatchupStatsKey :=
  match posPlayers with
  | [p₁, p₂] =>
    if p₁.Win = p₂.Win then stats
    else
      let patch := normalizePatch p₁.GameVersion
      addStat
        (addStat stats ⟨patch, p₁.ChampionID, p₁.TeamPosition, p₂.ChampionID⟩ p₁.Win)
        ⟨patch, p₂.ChampionID, p₂.TeamPosition, p₁.ChampionID⟩ p₂.Win
  | _ => stats

/-- Matchup contributions of one match: every position group in turn. -/
def matchupsOfMatch (participants : List RawMatch) (stats : StatMap MatchupStatsKey) :
    StatMap MatchupStatsKey :=
  (byPosition participants).foldl (fun s g => matchupOfPosGroup g.2 s) stats

/-- The second pass of `aggregateFile` over the grouped participants. -/
def computeMatchups (groups : List (String × List RawMatch)) : StatMap MatchupStatsKey :=
  groups.foldl (fun s g => matchupsOfMatch g.2 s) (zeroMap _)

/-- What `aggregateFile` returns for one readable file. -/
structure FileAgg where
  championStats : StatMap ChampionStatsKey
  itemStats : StatMap ItemStatsKey
  itemSlotStats : StatMap ItemSlotStatsKey
  matchupStats : StatMap MatchupStatsKey
  detectedPatch : String
  recordCount : Nat

/-- `aggregateFile` on the parsed line sequence of one warm file. -/
def aggregateFile (itemFilter : ItemFilter) (lines : List Line) : FileAgg :=
  let st := lines.foldl (scanLine itemFilter) initFileScan
  { championStats := st.championStats, itemStats := st.itemStats,
    itemSlotStats := st.itemSlotStats,
    matchupStats := computeMatchups st.matchParticipants,
    detectedPatch := st.detectedPatch, recordCount := st.recordCount }

/-- One warm file as the aggregator sees it: either `os.Open`/scanner
failure, or its line sequence. -/
inductive WarmFile where
  | failed
  | ok (lines : List Line)

/-- `AggData`, the aggregate bundle. -/
structure AggData where
  ChampionStats : StatMap ChampionStatsKey
  ItemStats : StatMap ItemStatsKey
  ItemSlotStats : StatMap ItemSlotStatsKey
  MatchupStats : StatMap MatchupStatsKey
  DetectedPatch : String
  FilesProcessed : Nat
  TotalRecords : Nat

/-- The empty bundle `AggregateWarmFiles` starts from. -/
def emptyAggData : AggData :=
  { ChampionStats := zeroMap _, ItemStats := zeroMap _, ItemSlotStats := zeroMap _,
    MatchupStats := zeroMap _, DetectedPatch := "", FilesProcessed := 0, TotalRecords := 0 }

/-- One iteration of `AggregateWarmFiles`' file loop: a file whose open or
scan failed is skipped whole, otherwise its stats are merged in. -/
def aggStep (itemFilter : ItemFilter) (agg : AggData) : WarmFile → AggData
  | .failed => agg
  | .ok lines =>
    let f := aggregateFile itemFilter lines
    { ChampionStats := mergeMap agg.ChampionStats f.championStats,
      ItemStats := mergeMap agg.ItemStats f.itemStats,
      ItemSlotStats := mergeMap agg.ItemSlotStats f.itemSlotStats,
      MatchupStats := mergeMap agg.MatchupStats f.matchupStats,
      DetectedPatch := if f.detectedPatch ≠ "" then f.detectedPatch else agg.DetectedPatch,
      FilesProcessed := agg.FilesProcessed + 1,
      TotalRecords := agg.TotalRecords + f.recordCount }

/-- `AggregateWarmFiles` over the sorted warm-file list. -/
def AggregateWarmFiles (files : List WarmFile) (itemFilter : ItemFilter) : AggData :=
  files.foldl (aggStep itemFilter) emptyAggData

/-- The patch of the most-recently observed record with a non-empty role
across the whole corpus, written from the specification's words. -/
def specMostRecentPatch (files : List WarmFile) : String :=
  files.foldl
    (fun acc wf =>
      match wf with
      | .failed => acc
      | .ok lines =>
        lines.foldl
          (fun a l =>
            match l with
            | .malformed => a
            | .parsed m =>
              if m.TeamPosition = "" then a else normalizePatch m.GameVersion)
          acc)
    ""

/-- The per-file patch the code actually keeps: the first non-empty
normalized patch among the file's records with a non-empty role. -/
def filePatch : List Line → String
  | [] => ""
  | .malformed :: rest => filePatch rest
  | .parsed m :: rest =>
    if m.TeamPosition = "" then filePatch rest
    else if normalizePatch m.GameVersion = "" then filePatch rest
    else normalizePatch m.GameVersion

/-- The corpus-level patch the code actually keeps: the last non-empty
per-file patch in file order. -/
def amendedDetectedPatch (files : List WarmFile) : String :=
  files.foldl
    (fun acc wf =>
      match wf with
      | .failed => acc
      | .ok lines => if filePatch lines = "" then acc else filePatch lines)
    ""

/-- Drop the lines `json.Unmarshal` rejects. -/
def parseableLines (lines : List Line) : List Line :=
  lines.filter (fun l => match l with | .malformed => false | .parsed _ => true)

/-! ## Archiver (`reducer.go`: `archiveFile`) -/

/-- A byte sequence. -/
abbrev Bytes := List Nat

/-- The warm and cold directories as partial maps from file name to
contents. -/
structure FS where
  warm : String → Option Bytes
  cold : String → Option Bytes

/-- `os.Remove` on a directory map. -/
def removeFile (d : String → Option Bytes) (name : String) : String → Option Bytes :=
  fun n => if n = name then none else d n

/-- Writing (creating or truncating) a file in a directory map. -/
def writeFile (d : String → Option Bytes) (name : String) (content : Bytes) :
    String → Option Bytes :=
  fun n => if n = name then some content else d n

/-- The I/O outcome of one `archiveFile` call: all I/O succeeds, or
`os.Create`, the `io.Copy`, or `gzWriter.Close` fails. -/
inductive IOEvent where
  | ok
  | createFail
  | writeFail
  | closeFail
  deriving DecidableEq, Repr

/-- Which step of `archiveFile` produced the surfaced error. -/
inductive ArchiveError where
  | openErr
  | createErr
  | writeErr
  | closeErr
  deriving DecidableEq, Repr

/-- The cold name of a warm file: `<original>.gz`. -/
def coldNameOf (srcPath : String) : String := srcPath ++ ".gz"

/-- `archiveFile`: stream the warm file through gzip into the cold
directory, then remove the original; on a write or close failure the
partial cold file is removed and the error surfaced. `gzipCompress`
stands for the gzip encoding of the full byte stream. -/
def archiveFile (gzipCompress : Bytes → Bytes) (ev : IOEvent) (fs : FS) (srcPath : String) :
    Option ArchiveError × FS :=
  match fs.warm srcPath with
  | none => (some .openErr, fs)
  | some content =>
    match ev with
    | .createFail => (some .createErr, fs)
    | .writeFail => (some .writeErr, { fs with cold := removeFile fs.cold (coldNameOf srcPath) })
    | .closeFail => (some .closeErr, { fs with cold := removeFile fs.cold (coldNameOf srcPath) })
    | .ok =>
      (none,
        { warm := removeFile fs.warm srcPath,
          cold := writeFile fs.cold (coldNameOf srcPath) (gzipCompress content) })

/-! ## Theorems: state machine -/

theorem tryCallsCount_eq_zero (s : State) (h : s ≠ State.Collecting) :
    ∀ n, tryCallsCount s n = 0 := by
  intro n
  induction n with
  | zero => rfl
  | succ n ih => simpa [tryCallsCount, TryTransitionToReducing, h] using ih

/-- C1: `TryTransitionToReducing` succeeds (returns `true` with the state
becoming REDUCING) iff the state at the call is COLLECTING; in every
other state it returns `false` and leaves the state unchanged, so among
any number of serialised callers at most one succeeds per COLLECTING
period, and from COLLECTING exactly one of `n ≥ 1` callers succeeds. -/
theorem tryTransitionToReducing_cas (s : State) (n : Nat) :
    (TryTransitionToReducing s = (true, State.Reducing) ↔ s = State.Collecting)
    ∧ (s ≠ State.Collecting → TryTransitionToReducing s = (false, s))
    ∧ tryCallsCount s n ≤ 1
    ∧ (s = State.Collecting → 1 ≤ n → tryCallsCount s n = 1) := by
  refine ⟨?_, ?_, ?_, ?_⟩
  · cases s <;> simp [TryTransitionToReducing]
  · intro h; simp [TryTransitionToReducing, h]
  · by_cases h : s = State.Collecting
    · subst h
      cases n with
      | zero => simp [tryCallsCount]
      | succ m =>
        simp [tryCallsCount, TryTransitionToReducing,
          tryCallsCount_eq_zero State.Reducing (by decide)]
    · simp [tryCallsCount_eq_zero s h]
  · intro hs hn
    subst hs
    cases n with
    | zero => exact absurd hn (by decide)
    | succ m =>
      simp [tryCallsCount, TryTransitionToReducing,
        tryCallsCount_eq_zero State.Reducing (by decide)]

theorem tryTransitionToReducing_cas_witness :
    TryTransitionToReducing State.Startup = (false, State.Startup)
    ∧ tryCallsCount State.Collecting 100 = 1 :=
  ⟨(tryTransitionToReducing_cas State.Startup 0).2.1 (by decide),
   (tryTransitionToReducing_cas State.Collecting 100).2.2.2 rfl (by decide)⟩

/-- C3: `TransitionTo` fails with `InvalidTransition(from, to)` exactly
when the target is not a listed successor of the current state or equals
it; on failure the state is unchanged, on success it becomes the target,
and the source adjacency table coincides with the specification's. -/
theorem transitionTo_adjacency : ∀ s t : State,
    ((TransitionTo s t).error = some ⟨s, t⟩ ↔ (validTransitions s t = false ∨ t = s))
    ∧ ((TransitionTo s t).error = none ↔ (validTransitions s t = true ∧ t ≠ s))
    ∧ ((TransitionTo s t).error ≠ none → (TransitionTo s t).state = s)
    ∧ ((TransitionTo s t).error = none → (TransitionTo s t).state = t)
    ∧ validTransitions s t = specValidTransitions s t := by
  decide

theorem transitionTo_adjacency_witness :
    (TransitionTo State.Collecting State.Pushing).error
      = some ⟨State.Collecting, State.Pushing⟩ :=
  (transitionTo_adjacency State.Collecting State.Pushing).1.mpr (by decide)

/-! ## Theorems: WarmFileCounter -/

theorem Increment_threshold (c : WarmFileCounter) :
    (Increment c).1.threshold = c.threshold := by
  unfold Increment
  dsimp only
  split <;> rfl

theorem incRun_threshold (n : Nat) : ∀ c, (incRun c n).1.threshold = c.threshold := by
  induction n with
  | zero => intro c; rfl
  | succ n ih =>
    intro c
    show (incRun (Increment c).1 n).1.threshold = c.threshold
    rw [ih, Increment_threshold]

theorem Increment_of_fired (c : WarmFileCounter) (h : c.fired = true) :
    Increment c = ({ c with count := c.count + 1 }, false) := by
  unfold Increment
  dsimp only
  rw [if_neg]
  intro hc
  rw [h] at hc
  exact absurd hc.2 (by decide)

theorem incRun_fired (n : Nat) : ∀ c, c.fired = true →
    (incRun c n).2 = List.replicate n false := by
  induction n with
  | zero => intro c _; rfl
  | succ n ih =>
    intro c h
    show ((incRun (Increment c).1 n).1, (Increment c).2 :: (incRun (Increment c).1 n).2).2
      = List.replicate (n + 1) false
    rw [Increment_of_fired c h]
    simp [List.replicate_succ]
    exact ih _ h

theorem fireIndicator_ge (n : Nat) : ∀ cnt t : Int, t ≤ cnt →
    fireIndicator cnt t n = List.replicate n false := by
  induction n with
  | zero => intro _ _ _; rfl
  | succ n ih =>
    intro cnt t h
    have hd : (cnt + 1 = t) = False := by simp; omega
    simp [fireIndicator, hd, List.replicate_succ]
    exact ih (cnt + 1) t (by omega)

theorem count_true_replicate_false (n : Nat) :
    (List.replicate n false).count true = 0 := by
  induction n with
  | zero => rfl
  | succ n ih => simpa [List.replicate_succ, List.count_cons] using ih

theorem fireIndicator_count (n : Nat) : ∀ cnt t : Int, cnt < t →
    (fireIndicator cnt t n).count true = if t ≤ cnt + (n : Int) then 1 else 0 := by
  induction n with
  | zero =>
    intro cnt t h
    have hc : ¬ t ≤ cnt + ((0 : Nat) : Int) := by push_cast; omega
    rw [if_neg hc]
    rfl
  | succ n ih =>
    intro cnt t h
    by_cases hc : cnt + 1 = t
    · have hrep := fireIndicator_ge n (cnt + 1) t (by omega)
      have hpos : t ≤ cnt + ((n + 1 : Nat) : Int) := by push_cast; omega
      rw [if_pos hpos]
      simp only [fireIndicator, hrep]
      simp [List.count_cons, count_true_replicate_false, hc]
    · have htail := ih (cnt + 1) t (by omega)
      have hiff : (t ≤ cnt + 1 + (n : Int)) = (t ≤ cnt + ((n + 1 : Nat) : Int)) := by
        have : (((n : Nat) + 1 : Nat) : Int) = (n : Int) + 1 := by push_cast; ring_nf
        rw [this]; congr 1; ring_nf
      simp [fireIndicator, hc, List.count_cons, htail, hiff]

theorem fireIndicator_getD (n : Nat) : ∀ (k : Nat) (cnt t : Int), k < n →
    (fireIndicator cnt t n).getD k false = decide (cnt + (k : Int) + 1 = t) := by
  induction n with
  | zero => intro k _ _ hk; exact absurd hk (by omega)
  | succ n ih =>
    intro k cnt t hk
    cases k with
    | zero => simp [fireIndicator]
    | succ k =>
      have := ih k (cnt + 1) t (by omega)
      simp only [fireIndicator, List.getD_cons_succ]
      rw [this]
      congr 1
      push_cast
      ring_nf

theorem incRun_spec (n : Nat) : ∀ c : WarmFileCounter,
    c.fired = false → c.count < c.threshold →
    (incRun c n).2 = fireIndicator c.count c.threshold n := by
  induction n with
  | zero => intro c _ _; rfl
  | succ n ih =>
    intro c hf hlt
    show ((incRun (Increment c).1 n).1, (Increment c).2 :: (incRun (Increment c).1 n).2).2
      = fireIndicator c.count c.threshold (n + 1)
    by_cases hc : c.count + 1 ≥ c.threshold
    · have heq : c.count + 1 = c.threshold := by omega
      have hinc : Increment c = ({ c with count := c.count + 1, fired := true }, true) := by
        unfold Increment
        dsimp only
        rw [if_pos ⟨hc, hf⟩]
      rw [hinc]
      simp only [fireIndicator]
      rw [incRun_fired n _ rfl, fireIndicator_ge n _ _ (by omega)]
      simp [heq]
    · have hinc : Increment c = ({ c with count := c.count + 1 }, false) := by
        unfold Increment
        dsimp only
        rw [if_neg]
        intro hcontr
        exact hc hcontr.1
      rw [hinc]
      simp only [fireIndicator]
      have htail : (incRun { c with count := c.count + 1 } n).2
          = fireIndicator (c.count + 1) c.threshold n :=
        ih { c with count := c.count + 1 } (by simp [hf]) (by simp; omega)
      have hd : (decide (c.count + 1 = c.threshold)) = false := by
        simp only [decide_eq_false_iff_not]
        omega
      rw [hd, htail]

/-- C2: starting from `Reset` with a positive threshold `t`, a run of
`Increment` calls fires the registered callback exactly once — at the
first call whose post-increment count reaches `t` — and never again until
`Reset`, which restores the counter to its freshly constructed state and
so re-arms the callback for the next crossing. -/
theorem warmFileCounter_single_shot (t : Int) (ht : 0 < t) (n : Nat) :
    ((incRun (NewWarmFileCounter t) n).2.count true = if t ≤ (n : Int) then 1 else 0)
    ∧ (∀ k : Nat, k < n →
        ((incRun (NewWarmFileCounter t) n).2.getD k false = true ↔ (k : Int) + 1 = t))
    ∧ Reset ((incRun (NewWarmFileCounter t) n).1) = NewWarmFileCounter t := by
  have hspec : (incRun (NewWarmFileCounter t) n).2 = fireIndicator 0 t n :=
    incRun_spec n (NewWarmFileCounter t) rfl ht
  refine ⟨?_, ?_, ?_⟩
  · rw [hspec]
    have := fireIndicator_count n 0 t ht
    simpa using this
  · intro k hk
    rw [hspec, fireIndicator_getD n k 0 t hk]
    simp
  · have hth : (incRun { count := 0, threshold := t, fired := false } n).1.threshold = t :=
      incRun_threshold n _
    unfold Reset NewWarmFileCounter
    rw [hth]

theorem warmFileCounter_single_shot_witness :
    (incRun (NewWarmFileCounter 3) 10).2.getD 2 false = true ↔ ((2 : Nat) : Int) + 1 = 3 :=
  (warmFileCounter_single_shot 3 (by norm_num) 10).2.1 2 (by norm_num)

/-! ## Theorems: aggregator -/

/-- C4: within the aggregation of one warm file, a (match, role) group of
exactly two participants with differing outcome flags adds one match —
and a win for the winning side — under each of the two symmetric
matchup keys; a two-participant group with equal outcome flags, and a
group of any other size, leaves the matchup map untouched. -/
theorem matchup_pairing (ps : List RawMatch) (stats : StatMap MatchupStatsKey) :
    (∀ p₁ p₂, ps = [p₁, p₂] → p₁.Win ≠ p₂.Win →
      matchupOfPosGroup ps stats =
        addStat
          (addStat stats
            ⟨normalizePatch p₁.GameVersion, p₁.ChampionID, p₁.TeamPosition, p₂.ChampionID⟩
            p₁.Win)
          ⟨normalizePatch p₁.GameVersion, p₂.ChampionID, p₂.TeamPosition, p₁.ChampionID⟩
          p₂.Win)
    ∧ (∀ p₁ p₂, ps = [p₁, p₂] → p₁.Win = p₂.Win → matchupOfPosGroup ps stats = stats)
    ∧ (ps.length ≠ 2 → matchupOfPosGroup ps stats = stats) := by
  refine ⟨?_, ?_, ?_⟩
  · intro p₁ p₂ hps hne
    subst hps
    simp [matchupOfPosGroup, hne]
  · intro p₁ p₂ hps heq
    subst hps
    simp [matchupOfPosGroup, heq]
  · intro hlen
    match ps, hlen with
    | [], _ => rfl
    | [_], _ => rfl
    | _ :: _ :: _ :: _, _ => rfl
    | [p₁, p₂], h => exact absurd rfl h

theorem matchup_pairing_witness :
    matchupOfPosGroup
      [⟨"M1", "15.1.1", 10, "MIDDLE", true, 0, 0, 0, 0, 0, 0, []⟩,
       ⟨"M1", "15.1.1", 20, "MIDDLE", true, 0, 0, 0, 0, 0, 0, []⟩]
      (zeroMap _)
    = zeroMap _ :=
  (matchup_pairing
    [⟨"M1", "15.1.1", 10, "MIDDLE", true, 0, 0, 0, 0, 0, 0, []⟩,
     ⟨"M1", "15.1.1", 20, "MIDDLE", true, 0, 0, 0, 0, 0, 0, []⟩]
    (zeroMap _)).2.1 _ _ rfl rfl

theorem foldl_scanLine_parseable (itemFilter : ItemFilter) :
    ∀ (lines : List Line) (st : FileScan),
      lines.foldl (scanLine itemFilter) st
        = (parseableLines lines).foldl (scanLine itemFilter) st := by
  intro lines
  induction lines with
  | nil => intro st; rfl
  | cons l rest ih =>
    intro st
    cases l with
    | malformed => simpa [parseableLines] using ih st
    | parsed m => simpa [parseableLines] using ih (scanLine itemFilter st (.parsed m))

/-- C8 (amended): a line that fails to parse is skipped silently — it is
never fatal, no counter is incremented for it, it contributes to no
statistic map, and the file aggregates exactly as if the malformed line
were absent. -/
theorem malformed_line_skipped (itemFilter : ItemFilter) (lines : List Line) :
    aggregateFile itemFilter lines = aggregateFile itemFilter (parseableLines lines) := by
  unfold aggregateFile
  rw [foldl_scanLine_parseable]

/-- C8 (counterexample to the claim as stated): the skip of a malformed
line increments no counter at all — the scan state, including the only
per-line counter `recordCount`, is bit-for-bit unchanged, and a file
holding only a malformed line contributes zero to `TotalRecords`. -/
theorem malformed_line_no_counter :
    scanLine (fun _ => true) initFileScan Line.malformed = initFileScan
    ∧ (AggregateWarmFiles [WarmFile.ok [Line.malformed]] (fun _ => true)).TotalRecords = 0 :=
  ⟨rfl, rfl⟩

/-- C10: a warm file whose open or scan fails is skipped whole — it is
not counted in `FilesProcessed` or `TotalRecords`, contributes to no
statistic map, and the aggregation over the remaining files proceeds as
if the failing file were not there. -/
theorem failed_file_skipped (itemFilter : ItemFilter) (pre post : List WarmFile) :
    AggregateWarmFiles (pre ++ WarmFile.failed :: post) itemFilter
      = AggregateWarmFiles (pre ++ post) itemFilter := by
  unfold AggregateWarmFiles
  rw [List.foldl_append, List.foldl_append]
  rfl

theorem scanLine_detectedPatch_pos (itemFilter : ItemFilter) (st : FileScan)
    (m : RawMatch) (hpos : ¬ m.TeamPosition = "") :
    (scanLine itemFilter st (.parsed m)).detectedPatch
      = if st.detectedPatch = "" then normalizePatch m.GameVersion
        else st.detectedPatch := by
  simp [scanLine, hpos]

theorem foldl_scanLine_detectedPatch (itemFilter : ItemFilter) :
    ∀ (lines : List Line) (st : FileScan),
      (lines.foldl (scanLine itemFilter) st).detectedPatch
        = if st.detectedPatch = "" then filePatch lines else st.detectedPatch := by
  intro lines
  induction lines with
  | nil =>
    intro st
    simp only [List.foldl_nil, filePatch]
    split <;> simp_all
  | cons l rest ih =>
    intro st
    cases l with
    | malformed => simpa [filePatch] using ih st
    | parsed m =>
      by_cases hpos : m.TeamPosition = ""
      · have h1 : scanLine itemFilter st (.parsed m)
            = { st with recordCount := st.recordCount + 1 } := by
          simp [scanLine, hpos]
        rw [List.foldl_cons, h1, ih]
        simp [filePatch, hpos]
      · rw [List.foldl_cons, ih]
        rw [scanLine_detectedPatch_pos itemFilter st m hpos]
        by_cases hdp : st.detectedPatch = ""
        · by_cases hp : normalizePatch m.GameVersion = ""
          · simp [filePatch, hpos, hdp, hp]
          · simp [filePatch, hpos, hdp, hp]
        · simp [filePatch, hpos, hdp]

theorem aggregateFile_detectedPatch (itemFilter : ItemFilter) (lines : List Line) :
    (aggregateFile itemFilter lines).detectedPatch = filePatch lines := by
  show (lines.foldl (scanLine itemFilter) initFileScan).detectedPatch = filePatch lines
  rw [foldl_scanLine_detectedPatch]
  rfl

theorem aggFold_detectedPatch (itemFilter : ItemFilter) :
    ∀ (files : List WarmFile) (agg : AggData),
      (files.foldl (aggStep itemFilter) agg).DetectedPatch
        = files.foldl
            (fun acc wf =>
              match wf with
              | .failed => acc
              | .ok lines => if filePatch lines = "" then acc else filePatch lines)
            agg.DetectedPatch := by
  intro files
  induction files with
  | nil => intro agg; rfl
  | cons wf rest ih =>
    intro agg
    cases wf with
    | failed => simpa using ih agg
    | ok lines =>
      rw [List.foldl_cons, List.foldl_cons, ih]
      congr 1
      have hfp := aggregateFile_detectedPatch itemFilter lines
      show (if (aggregateFile itemFilter lines).detectedPatch ≠ "" then
          (aggregateFile itemFilter lines).detectedPatch else agg.DetectedPatch) = _
      rw [hfp]
      by_cases h : filePatch lines = "" <;> simp [h]

/-- C7 (amended): the bundle's detected patch is the per-file patch of
the last file (in sorted order) whose per-file patch is non-empty, where
a file's patch is the first non-empty normalized version among its
records with a non-empty role — not the patch of the most-recently
observed record. -/
theorem detectedPatch_last_file_first_record (files : List WarmFile)
    (itemFilter : ItemFilter) :
    (AggregateWarmFiles files itemFilter).DetectedPatch = amendedDetectedPatch files := by
  unfold AggregateWarmFiles amendedDetectedPatch
  rw [aggFold_detectedPatch]
  rfl

/-- C7 (counterexample to the claim as stated): one warm file holding two
records with non-empty roles and versions `14.1.1` then `14.2.1`.  The
code's detected patch is `14.1`, the patch of the *first* such record of
the file, while the most-recently observed record's patch is `14.2`. -/
theorem detectedPatch_not_most_recent :
    (AggregateWarmFiles
        [WarmFile.ok
          [Line.parsed ⟨"M1", "14.1.1", 1, "TOP", true, 0, 0, 0, 0, 0, 0, []⟩,
           Line.parsed ⟨"M1", "14.2.1", 2, "MIDDLE", false, 0, 0, 0, 0, 0, 0, []⟩]]
        (fun _ => true)).DetectedPatch = "14.1"
    ∧ specMostRecentPatch
        [WarmFile.ok
          [Line.parsed ⟨"M1", "14.1.1", 1, "TOP", true, 0, 0, 0, 0, 0, 0, []⟩,
           Line.parsed ⟨"M1", "14.2.1", 2, "MIDDLE", false, 0, 0, 0, 0, 0, 0, []⟩]]
        = "14.2"
    ∧ ("14.1" : String) ≠ "14.2" :=
  ⟨by decide, by decide, by decide⟩

theorem bump_comm (w₁ w₂ : Bool) (s : StatCounters) :
    bump w₁ (bump w₂ s) = bump w₂ (bump w₁ s) := by
  cases w₁ <;> cases w₂ <;> simp [bump]

theorem addStat_comm {κ : Type} [DecidableEq κ] (m : StatMap κ) (k₁ k₂ : κ)
    (w₁ w₂ : Bool) :
    addStat (addStat m k₁ w₁) k₂ w₂ = addStat (addStat m k₂ w₂) k₁ w₁ := by
  funext k'
  unfold addStat
  by_cases h₁ : k' = k₁
  · subst h₁
    by_cases h₂ : k' = k₂
    · subst h₂
      simp [bump_comm]
    · simp [h₂]
  · by_cases h₂ : k' = k₂
    · subst h₂
      simp [h₁]
    · simp [h₁, h₂]

theorem matchupOfPosGroup_addStat (g : List RawMatch) (m : StatMap MatchupStatsKey)
    (k : MatchupStatsKey) (w : Bool) :
    matchupOfPosGroup g (addStat m k w) = addStat (matchupOfPosGroup g m) k w := by
  rcases g with _ | ⟨p₁, _ | ⟨p₂, _ | ⟨p₃, rest⟩⟩⟩
  · rfl
  · rfl
  · by_cases h : p₁.Win = p₂.Win
    · simp [matchupOfPosGroup, h]
    · simp only [matchupOfPosGroup, if_neg h]
      rw [addStat_comm m k _ w, addStat_comm _ k _ w]
  · rfl

theorem matchupOfPosGroup_comm (g₁ g₂ : List RawMatch) (s : StatMap MatchupStatsKey) :
    matchupOfPosGroup g₁ (matchupOfPosGroup g₂ s)
      = matchupOfPosGroup g₂ (matchupOfPosGroup g₁ s) := by
  rcases g₂ with _ | ⟨p₁, _ | ⟨p₂, _ | ⟨p₃, rest⟩⟩⟩
  · rfl
  · rfl
  · by_cases h : p₁.Win = p₂.Win
    · have hdeg : ∀ X, matchupOfPosGroup [p₁, p₂] X = X := by
        intro X; simp [matchupOfPosGroup, h]
      rw [hdeg, hdeg]
    · have hpair : ∀ X, matchupOfPosGroup [p₁, p₂] X
          = addStat
              (addStat X
                ⟨normalizePatch p₁.GameVersion, p₁.ChampionID, p₁.TeamPosition, p₂.ChampionID⟩
                p₁.Win)
              ⟨normalizePatch p₁.GameVersion, p₂.ChampionID, p₂.TeamPosition, p₁.ChampionID⟩
              p₂.Win := by
        intro X; simp [matchupOfPosGroup, h]
      rw [hpair, hpair, matchupOfPosGroup_addStat, matchupOfPosGroup_addStat]
  · rfl

theorem foldl_pos_comm (gs : List (String × List RawMatch)) :
    ∀ (g : List RawMatch) (s : StatMap MatchupStatsKey),
      gs.foldl (fun s' g' => matchupOfPosGroup g'.2 s') (matchupOfPosGroup g s)
        = matchupOfPosGroup g (gs.foldl (fun s' g' => matchupOfPosGroup g'.2 s') s) := by
  induction gs with
  | nil => intro g s; rfl
  | cons x rest ih =>
    intro g s
    rw [List.foldl_cons, List.foldl_cons, matchupOfPosGroup_comm x.2 g, ih]

theorem matchupsOfMatch_comm (ps₁ ps₂ : List RawMatch) (s : StatMap MatchupStatsKey) :
    matchupsOfMatch ps₁ (matchupsOfMatch ps₂ s)
      = matchupsOfMatch ps₂ (matchupsOfMatch ps₁ s) := by
  unfold matchupsOfMatch
  generalize byPosition ps₁ = gs₁
  generalize byPosition ps₂ = gs₂
  induction gs₂ generalizing s with
  | nil => rfl
  | cons x rest ih =>
    rw [List.foldl_cons, List.foldl_cons]
    rw [ih (matchupOfPosGroup x.2 s)]
    rw [foldl_pos_comm gs₁ x.2 s]

theorem foldl_eq_of_perm {α : Type} (f : StatMap MatchupStatsKey → α → StatMap MatchupStatsKey)
    (hf : ∀ s a b, f (f s a) b = f (f s b) a) :
    ∀ {l₁ l₂ : List α}, l₁.Perm l₂ → ∀ s, l₁.foldl f s = l₂.foldl f s := by
  intro l₁ l₂ p
  induction p with
  | nil => intro s; rfl
  | cons x _ ih =>
    intro s
    rw [List.foldl_cons, List.foldl_cons]
    exact ih _
  | swap x y l =>
    intro s
    rw [List.foldl_cons, List.foldl_cons, List.foldl_cons, List.foldl_cons, hf]
  | trans _ _ ih₁ ih₂ =>
    intro s
    exact (ih₁ s).trans (ih₂ s)

/-- C9: the aggregation is deterministic.  In the embedding the bundle is
a pure function of the warm corpus and the item filter; the only
run-to-run variation in the source is Go's randomised map-iteration
order, namely the `matchParticipants` range loop and the `byPosition`
range loop of the matchup pass (the merge loops add keywise and are
order-free).  Both loops are invariant under any permutation of their
iteration order, so two runs over the same corpus yield equal bundles. -/
theorem aggregation_deterministic (gs₁ gs₂ : List (String × List RawMatch))
    (hg : gs₁.Perm gs₂)
    (pgs₁ pgs₂ : List (String × List RawMatch)) (hp : pgs₁.Perm pgs₂)
    (s : StatMap MatchupStatsKey) :
    computeMatchups gs₁ = computeMatchups gs₂
    ∧ pgs₁.foldl (fun s' g => matchupOfPosGroup g.2 s') s
        = pgs₂.foldl (fun s' g => matchupOfPosGroup g.2 s') s := by
  constructor
  · unfold computeMatchups
    exact foldl_eq_of_perm _ (fun s' a b => matchupsOfMatch_comm b.2 a.2 s') hg _
  · exact foldl_eq_of_perm _ (fun s' a b => matchupOfPosGroup_comm b.2 a.2 s') hp s

theorem aggregation_deterministic_witness :
    computeMatchups
      [("M1", [⟨"M1", "15.1", 10, "TOP", true, 0, 0, 0, 0, 0, 0, []⟩,
               ⟨"M1", "15.1", 20, "TOP", false, 0, 0, 0, 0, 0, 0, []⟩]),
       ("M2", [])]
    = computeMatchups
      [("M2", []),
       ("M1", [⟨"M1", "15.1", 10, "TOP", true, 0, 0, 0, 0, 0, 0, []⟩,
               ⟨"M1", "15.1", 20, "TOP", false, 0, 0, 0, 0, 0, 0, []⟩])] :=
  (aggregation_deterministic _ _
    (List.Perm.swap ("M2", []) _ [])
    [] [] (List.Perm.refl []) (zeroMap _)).1

/-! ## Theorems: archiver -/

/-- C5: when every I/O step of `archiveFile` succeeds, the cold directory
holds `<original>.gz` containing the gzip stream of the warm original, so
gunzip-decompressing it (any decoder inverting the encoder) yields
exactly the original byte sequence, and the warm original has been
removed — the removal happening only in this all-succeeded branch. -/
theorem archive_roundtrip (gzipCompress gzipDecompress : Bytes → Bytes)
    (hround : ∀ b, gzipDecompress (gzipCompress b) = b)
    (fs : FS) (srcPath : String) (content : Bytes)
    (hsrc : fs.warm srcPath = some content) :
    (archiveFile gzipCompress .ok fs srcPath).1 = none
    ∧ (archiveFile gzipCompress .ok fs srcPath).2.cold (coldNameOf srcPath)
        = some (gzipCompress content)
    ∧ Option.map gzipDecompress
        ((archiveFile gzipCompress .ok fs srcPath).2.cold (coldNameOf srcPath))
        = some content
    ∧ (archiveFile gzipCompress .ok fs srcPath).2.warm srcPath = none := by
  simp [archiveFile, hsrc, writeFile, removeFile, hround]

theorem archive_roundtrip_witness :
    Option.map List.reverse
      ((archiveFile List.reverse IOEvent.ok
          ⟨fun n => if n = "raw_matches_1.jsonl" then some [1, 2, 3] else none,
           fun _ => none⟩
          "raw_matches_1.jsonl").2.cold (coldNameOf "raw_matches_1.jsonl"))
      = some [1, 2, 3] :=
  (archive_roundtrip List.reverse List.reverse (fun b => List.reverse_reverse b)
    ⟨fun n => if n = "raw_matches_1.jsonl" then some [1, 2, 3] else none, fun _ => none⟩
    "raw_matches_1.jsonl" [1, 2, 3] (by simp)).2.2.1

/-- C6: when the compressing copy or the gzip-stream close fails,
`archiveFile` surfaces an error, the partial cold file is removed, and
the warm original is untouched; and the warm original disappears only in
the branch where every step — write and close included — succeeded. -/
theorem archive_failure_keeps_warm (gzipCompress : Bytes → Bytes) (ev : IOEvent)
    (hev : ev = IOEvent.writeFail ∨ ev = IOEvent.closeFail)
    (fs : FS) (srcPath : String) (content : Bytes)
    (hsrc : fs.warm srcPath = some content) :
    ((archiveFile gzipCompress ev fs srcPath).1).isSome = true
    ∧ (archiveFile gzipCompress ev fs srcPath).2.warm srcPath = some content
    ∧ (archiveFile gzipCompress ev fs srcPath).2.cold (coldNameOf srcPath) = none
    ∧ (∀ ev' : IOEvent,
        (archiveFile gzipCompress ev' fs srcPath).2.warm srcPath = none →
          (archiveFile gzipCompress ev' fs srcPath).1 = none ∧ ev' = IOEvent.ok) := by
  refine ⟨?_, ?_, ?_, ?_⟩
  · rcases hev with h | h <;> subst h <;> simp [archiveFile, hsrc]
  · rcases hev with h | h <;> subst h <;> simp [archiveFile, hsrc]
  · rcases hev with h | h <;> subst h <;> simp [archiveFile, hsrc, removeFile]
  · intro ev' h
    cases ev' <;> simp [archiveFile, hsrc, removeFile] at h ⊢

theorem archive_failure_keeps_warm_witness :
    (archiveFile List.reverse IOEvent.writeFail
        ⟨fun n => if n = "raw_matches_2.jsonl" then some [7, 8] else none, fun _ => none⟩
        "raw_matches_2.jsonl").2.warm "raw_matches_2.jsonl" = some [7, 8] :=
  (archive_failure_keeps_warm List.reverse IOEvent.writeFail (Or.inl rfl)
    ⟨fun n => if n = "raw_matches_2.jsonl" then some [7, 8] else none, fun _ => none⟩
    "raw_matches_2.jsonl" [7, 8] (by simp)).2.1

end GhostDraft.Collector
